import Mathlib

/-!
# Taiji pusher worker: the delivery loop of `pusher_worker.go`

A shallow embedding of `PusherWorker.work` and `PusherWorker.delivery`.

* The consumer's message channel is the list `pending` of messages not yet
  received; the channel is closed when the list is empty.
* `client.Do` is an oracle `Nat → DoResult`: the result of the `i`-th HTTP
  call made by the worker.
* `work` is a step function on an explicit state with one control location
  per loop head of the source; every log line that the properties talk about,
  every `time.Sleep` and every `CommitUpto` is appended to `trace`.
* `http.NewRequest` returns no request for a `Url` that does not parse; its
  error is discarded at line 138, line 139 then dereferences the nil request
  and `work` dies.  The state records this in `panicked`.
* `int64` arithmetic (`message.Offset-1`, `eventCount += 1`) wraps through
  `wrap64`.  `retry_times++` is executed only under `retry_times < RetryTimes`
  and therefore never leaves the range of `int`.
-/

namespace Taiji

/-! ## Data model -/

/-- Two's-complement wrap-around of a 64-bit signed integer. -/
def wrap64 (x : Int) : Int := (x + 2 ^ 63) % 2 ^ 64 - 2 ^ 63

/-- A value is representable as `int64`. -/
def InInt64 (x : Int) : Prop := -(2 ^ 63) ≤ x ∧ x < 2 ^ 63

/-- The struct `PusherWorkerCallback` (durations in nanoseconds). -/
structure PusherWorkerCallback where
  Url : String
  RetryTimes : Int
  Timeout : Int
  BypassFailed : Bool
  FailedSleep : Int
deriving DecidableEq, Repr

/-- The fields of `sarama.ConsumerMessage` that the worker reads. -/
structure ConsumerMessage where
  Key : List Nat
  Value : List Nat
  Topic : String
  Partition : Int
  Offset : Int
deriving DecidableEq, Repr

/-- The fields of `Msg` that `delivery` reads; the type is declared outside
`pusher_worker.go`. -/
structure Msg where
  Topic : String
  Partition : Int
  Offset : Int
  Key : List Nat
  Value : List Nat
deriving DecidableEq, Repr

/-- What `pusher_worker.go` uses but does not define: the constant `VERSION`,
the function `CreateMsg`, and the URL parser behind `http.NewRequest`
(`UrlParses u` tells whether `http.NewRequest("POST", u, body)` returns a
request).  All three are parameters of the embedding. -/
structure Extern where
  VERSION : String
  CreateMsg : ConsumerMessage → Msg
  UrlParses : String → Bool

/-- The struct `PusherWorker`; the consumer group is represented by the
channel contents in `State.pending`. -/
structure PusherWorker where
  Callback : PusherWorkerCallback
  Topics : List String
  Zookeeper : List String
  ZkPath : String

/-- The request assembled by `delivery`: form fields and headers. -/
structure Request where
  method : String
  url : String
  timeout : Int
  form_topic : String
  form_key : List Nat
  form_offset : Int
  form_partition : Int
  form_message : List Nat
  contentType : String
  userAgent : String
  xRetryTimes : Int
deriving DecidableEq, Repr

/-- What `client.Do(req)` returns: a response (`err == nil`) with its status
code, or a transport error or timeout (`err != nil`). -/
inductive DoResult where
  | response (StatusCode : Int)
  | failed (err : String)
deriving DecidableEq, Repr

/-- Lines 127-141 for a `Url` that `http.NewRequest` accepts: the form body
and the headers of the request. -/
def acceptedRequest (w : PusherWorker) (x : Extern) (msg : Msg) (retry_times : Int) : Request :=
  { method := "POST"
    url := w.Callback.Url
    timeout := w.Callback.Timeout
    form_topic := msg.Topic
    form_key := msg.Key
    form_offset := msg.Offset
    form_partition := msg.Partition
    form_message := msg.Value
    contentType := "application/x-www-form-urlencoded; param=value"
    userAgent := "Taiji pusher consumer(go)/v" ++ x.VERSION
    xRetryTimes := retry_times }

/-- `PusherWorker.delivery`, lines 127-141: the request handed to `client.Do`.
There is none when `Callback.Url` does not parse: `http.NewRequest` returns
`nil` (line 138, error discarded) and `req.Header.Set` at line 139 panics. -/
def deliveryRequest (w : PusherWorker) (x : Extern) (msg : Msg) (retry_times : Int) :
    Option Request :=
  if x.UrlParses w.Callback.Url then some (acceptedRequest w x msg retry_times) else none

/-- `PusherWorker.delivery`, lines 142-151: the pair `(suc, err)` returned for
the result `r` of `client.Do`, once the request exists. -/
def delivery (r : DoResult) : Bool × Option String :=
  match r with
  | .response StatusCode => (decide (StatusCode = 200), none)
  | .failed err => (false, some err)

/-- The map `offsets` of `work`: `map[string]map[int32]int64`. -/
abbrev Offsets := String → Option (Int → Option Int)

/-- `make(map[string]map[int32]int64)`. -/
def Offsets.empty : Offsets := fun _ => none

/-- The map entry for `(topic, partition)`, if there is one. -/
def Offsets.entry (o : Offsets) (topic : String) (partition : Int) : Option Int :=
  match o topic with
  | none => none
  | some inner => inner partition

/-- Reading `offsets[topic][partition]`: a missing key reads as `0`. -/
def Offsets.read (o : Offsets) (topic : String) (partition : Int) : Int :=
  (o.entry topic partition).getD 0

/-- Lines 86-88: `if offsets[topic] == nil { offsets[topic] = make(...) }`. -/
def Offsets.ensure (o : Offsets) (topic : String) : Offsets :=
  match o topic with
  | none => fun t => if t = topic then some (fun _ => none) else o t
  | some _ => o

/-- Line 117: `offsets[topic][partition] = offset`; lines 86-88 have made sure
that `offsets[topic]` exists when the line is reached. -/
def Offsets.set (o : Offsets) (topic : String) (partition : Int) (offset : Int) : Offsets :=
  fun t =>
    if t = topic then
      some (fun p => if p = partition then some offset
                     else match o topic with
                          | none => none
                          | some inner => inner p)
    else o t

/-- Line 91: the condition under which "Unexpected offset" is logged. -/
def unexpectedOffset (o : Offsets) (message : ConsumerMessage) : Bool :=
  decide (o.read message.Topic message.Partition ≠ 0) &&
  decide (o.read message.Topic message.Partition ≠ wrap64 (message.Offset - 1))

/-- The observable actions of `work`.  `seq` is the position in the channel of
the message being processed (ghost instrumentation). -/
inductive Event where
  /-- Line 92: the "Unexpected offset" log line with its three numbers. -/
  | unexpected (seq : Nat) (message : ConsumerMessage) (expected found diff : Int)
  /-- Line 96: "received message". -/
  | received (seq : Nat) (msg : Msg)
  /-- Line 102: one call of `delivery` that returned, and its `success` result. -/
  | attempt (seq : Nat) (message : ConsumerMessage) (req : Request) (success : Bool)
  /-- Line 102: a call of `delivery` that panicked at line 139; `work` is dead. -/
  | died (seq : Nat) (message : ConsumerMessage) (retry_times : Int)
  /-- Line 109: the log line of the `BypassFailed` branch. -/
  | bypass (seq : Nat) (retry_times : Int)
  /-- Line 113: `time.Sleep(FailedSleep)`. -/
  | sleep (seq : Nat) (duration : Int)
  /-- Line 118: `consumer.CommitUpto(message)`. -/
  | commitUpto (seq : Nat) (message : ConsumerMessage)
deriving DecidableEq, Repr

/-- Control locations of `work`. -/
inductive Loc where
  /-- Line 85: head of `for message := range consumer.Messages()`. -/
  | recv
  /-- Line 101: head of the inner `for`. -/
  | inner
  /-- Line 108: `if this.Callback.BypassFailed`. -/
  | check
  /-- Lines 117-119: after the outer `for`. -/
  | commit
  /-- Line 123: the channel was closed and `work` returned. -/
  | done
deriving DecidableEq, Repr

/-- The local state of `work`. -/
structure State where
  loc : Loc
  pending : List ConsumerMessage
  offsets : Offsets
  eventCount : Int
  message : ConsumerMessage
  msg : Msg
  deliverySuccessed : Bool
  retry_times : Int
  /-- Set when `delivery` panics at line 139.  This happens in the body of the
  inner loop, and `loc` stays `.inner` from then on. -/
  panicked : Bool
  /-- Ghost: number of `client.Do` calls made so far. -/
  calls : Nat
  /-- Ghost: number of messages received so far. -/
  seq : Nat
  trace : List Event

/-- Lines 82-83: the state in which the `range` loop is entered. -/
def init (x : Extern) (msgs : List ConsumerMessage) : State :=
  { loc := .recv
    pending := msgs
    offsets := Offsets.empty
    eventCount := 0
    message := ⟨[], [], "", 0, 0⟩
    msg := x.CreateMsg ⟨[], [], "", 0, 0⟩
    deliverySuccessed := false
    retry_times := 0
    panicked := false
    calls := 0
    seq := 0
    trace := [] }

/-- Lines 85-98: receive the next message, run the offset check, reset the
retry state. -/
def receive (x : Extern) (s : State) (message : ConsumerMessage) (rest : List ConsumerMessage) :
    State :=
  let offsets := s.offsets.ensure message.Topic
  let stored := offsets.read message.Topic message.Partition
  let logged :=
    if unexpectedOffset offsets message then
      [Event.unexpected s.seq message (wrap64 (stored + 1)) message.Offset
        (wrap64 (wrap64 (message.Offset - stored) + 1))]
    else []
  { loc := .inner
    pending := rest
    offsets := offsets
    eventCount := wrap64 (s.eventCount + 1)
    message := message
    msg := x.CreateMsg message
    deliverySuccessed := false
    retry_times := 0
    panicked := s.panicked
    calls := s.calls
    seq := s.seq + 1
    trace := s.trace ++ logged ++ [Event.received s.seq (x.CreateMsg message)] }

/-- Lines 102-105: one pass through the body of the inner loop.  Without a
request `delivery` panics before `client.Do` is called and nothing of the
body runs after it; with a request the call returns `delivery (client.Do req)`. -/
def attemptOnce (w : PusherWorker) (x : Extern) (client : Nat → DoResult) (s : State) : State :=
  match deliveryRequest w x s.msg s.retry_times with
  | none =>
    { s with
      panicked := true
      trace := s.trace ++ [Event.died (s.seq - 1) s.message s.retry_times] }
  | some req =>
    let success := (delivery (client s.calls)).1
    { s with
      deliverySuccessed := success
      retry_times := if success then s.retry_times else s.retry_times + 1
      calls := s.calls + 1
      trace := s.trace ++ [Event.attempt (s.seq - 1) s.message req success] }

/-- One step of `work`, from one control location to the next.  A `work`
that died in the inner loop takes no further step. -/
def step (w : PusherWorker) (x : Extern) (client : Nat → DoResult) (s : State) : State :=
  match s.loc with
  | .recv =>
    match s.pending with
    | [] => { s with loc := .done }
    | message :: rest => receive x s message rest
  | .inner =>
    if s.panicked then s
    else if !s.deliverySuccessed && decide (s.retry_times < w.Callback.RetryTimes) then
      attemptOnce w x client s
    else
      { s with loc := .check }
  | .check =>
    if w.Callback.BypassFailed then
      { s with loc := .commit, trace := s.trace ++ [Event.bypass (s.seq - 1) s.retry_times] }
    else
      { s with loc := .inner, trace := s.trace ++ [Event.sleep (s.seq - 1) w.Callback.FailedSleep] }
  | .commit =>
    { s with
      loc := .recv
      offsets := s.offsets.set s.message.Topic s.message.Partition s.message.Offset
      trace := s.trace ++ [Event.commitUpto (s.seq - 1) s.message] }
  | .done => s

/-- The state after `k` steps. -/
def run (w : PusherWorker) (x : Extern) (client : Nat → DoResult) (k : Nat) (s : State) : State :=
  (step w x client)^[k] s

/-- The state of `work` after `k` steps on the channel contents `msgs`. -/
def work (w : PusherWorker) (x : Extern) (client : Nat → DoResult)
    (msgs : List ConsumerMessage) (k : Nat) : State :=
  run w x client k (init x msgs)


/-! ## Observations on traces -/

/-- The message of a `CommitUpto` call. -/
def Event.commitMsg : Event → Option ConsumerMessage
  | .commitUpto _ m => some m
  | _ => none

/-- The channel position of a `CommitUpto` call. -/
def Event.commitSeq : Event → Option Nat
  | .commitUpto i _ => some i
  | _ => none

/-- The retry number (the `X-Retry-Times` header) and result of a delivery
attempt made for the message at channel position `i`. -/
def Event.attemptInfo (i : Nat) : Event → Option (Int × Bool)
  | .attempt j _ req success => if j = i then some (req.xRetryTimes, success) else none
  | _ => none

/-- The event is a call of `delivery`, whether it returned or panicked. -/
def Event.isAttempt : Event → Bool
  | .attempt _ _ _ _ => true
  | .died _ _ _ => true
  | _ => false

/-- The event is a failed delivery attempt for channel position `i`. -/
def Event.isFailedAttempt (i : Nat) : Event → Bool
  | .attempt j _ _ success => decide (j = i) && !success
  | _ => false

/-- The event is a `time.Sleep`. -/
def Event.isSleep : Event → Bool
  | .sleep _ _ => true
  | _ => false

/-- The event is the "Unexpected offset" log line. -/
def Event.isUnexpected : Event → Bool
  | .unexpected _ _ _ _ _ => true
  | _ => false

/-- The channel position an event belongs to. -/
def Event.seq : Event → Nat
  | .unexpected i _ _ _ _ => i
  | .received i _ => i
  | .attempt i _ _ _ => i
  | .died i _ _ => i
  | .bypass i _ => i
  | .sleep i _ => i
  | .commitUpto i _ => i

/-- The messages passed to `CommitUpto`, in call order. -/
def commits (tr : List Event) : List ConsumerMessage := tr.filterMap Event.commitMsg

/-- The channel positions of the `CommitUpto` calls, in call order. -/
def commitSeqs (tr : List Event) : List Nat := tr.filterMap Event.commitSeq

/-- Retry numbers and results of the attempts made for channel position `i`. -/
def attempts (i : Nat) (tr : List Event) : List (Int × Bool) := tr.filterMap (Event.attemptInfo i)

/-- Number of delivery attempts in a trace. -/
def attemptCount (tr : List Event) : Nat := tr.countP Event.isAttempt

/-- Number of failed delivery attempts for channel position `i`. -/
def failedCount (i : Nat) (tr : List Event) : Nat := tr.countP (Event.isFailedAttempt i)

/-- Number of sleeps in a trace. -/
def sleepCount (tr : List Event) : Nat := tr.countP Event.isSleep

/-- The message held by the loop variable while the retry loop or the commit
is pending. -/
def current (s : State) : List ConsumerMessage :=
  match s.loc with
  | .inner => [s.message]
  | .check => [s.message]
  | .commit => [s.message]
  | _ => []

/-- Accounting of the channel: committed, current and pending messages make
up the channel contents, and `CommitUpto` calls carry consecutive positions. -/
structure StreamInv (msgs : List ConsumerMessage) (s : State) : Prop where
  stream : commits s.trace ++ current s ++ s.pending = msgs
  seq_eq : s.seq = (commits s.trace).length + (current s).length
  commit_seqs : commitSeqs s.trace = List.range (commits s.trace).length
  seq_lt : ∀ e ∈ s.trace, e.seq < s.seq

/-- The offset of the last message of `ms` on `(topic, partition)`. -/
def lastOffset (ms : List ConsumerMessage) (topic : String) (partition : Int) : Option Int :=
  ((ms.filter (fun m => decide (m.Topic = topic ∧ m.Partition = partition))).getLast?).map
    (fun m => m.Offset)

/-- Offsets do not decrease along the channel within a `(topic, partition)`. -/
def PartitionSorted (msgs : List ConsumerMessage) : Prop :=
  msgs.Pairwise (fun a b => a.Topic = b.Topic → a.Partition = b.Partition → a.Offset ≤ b.Offset)

/-- What lines 91-93 log for message `m` at channel position `i` when the map
is `o`. -/
def offsetLog (o : Offsets) (i : Nat) (m : ConsumerMessage) : List Event :=
  if unexpectedOffset o m then
    [Event.unexpected i m (wrap64 (o.read m.Topic m.Partition + 1)) m.Offset
      (wrap64 (wrap64 (m.Offset - o.read m.Topic m.Partition) + 1))]
  else []

/-- The events of `d` failed attempts for message `m` at channel position `i`,
carrying the retry numbers `0, 1, ..., d-1`. -/
def failedAttemptEvents (w : PusherWorker) (x : Extern) (i : Nat) (m : ConsumerMessage)
    (d : Nat) : List Event :=
  (List.range d).map (fun j =>
    Event.attempt i m (acceptedRequest w x (x.CreateMsg m) (j : Int)) false)

/-! ## Invariants of the loop -/

/-- What `work` has seen for the message at channel position `i` when the
trace is `pre`: a successful attempt for that message, or, with `BypassFailed`
set, as many failed attempts as `RetryTimes` allows. -/
def Justified (w : PusherWorker) (pre : List Event) (i : Nat) (m : ConsumerMessage) : Prop :=
  (∃ req, Event.attempt i m req true ∈ pre) ∨
  (w.Callback.BypassFailed = true ∧
    (failedCount i pre : Int) = max w.Callback.RetryTimes 0)

/-- Every `CommitUpto` in the trace is justified by the trace before it. -/
def CommitsJustified (w : PusherWorker) (tr : List Event) : Prop :=
  ∀ pre post i m, tr = pre ++ Event.commitUpto i m :: post → Justified w pre i m

/-- The retry state agrees with the attempts recorded for the current
message. -/
structure RetryInv (w : PusherWorker) (s : State) : Prop where
  justified : CommitsJustified w s.trace
  failed : current s ≠ [] → (failedCount (s.seq - 1) s.trace : Int) = s.retry_times
  succeeded : current s ≠ [] → s.deliverySuccessed = true →
    ∃ req, Event.attempt (s.seq - 1) s.message req true ∈ s.trace
  bound : current s ≠ [] → s.retry_times ≤ max w.Callback.RetryTimes 0
  exhausted : s.loc = .check ∨ s.loc = .commit → s.deliverySuccessed = false →
    w.Callback.RetryTimes ≤ s.retry_times
  bypass : s.loc = .commit → w.Callback.BypassFailed = true

/-- The states `work` is in after it took message `m` in state `s0` when
`BypassFailed` is off: inside the outer `for` of lines 100-115, with nothing
committed and no map entry written since `s0`. -/
structure Retrying (w : PusherWorker) (client : Nat → DoResult) (s0 : State)
    (m : ConsumerMessage) (rest : List ConsumerMessage) (s : State) : Prop where
  loc : s.loc = .inner ∨ s.loc = .check
  pending : s.pending = rest
  message : s.message = m
  seq : s.seq = s0.seq + 1
  commits_eq : commits s.trace = commits s0.trace
  entries : ∀ t p, s.offsets.entry t p = s0.offsets.entry t p
  calls : s0.calls ≤ s.calls
  nonneg : 0 ≤ s.retry_times
  count : s0.panicked = false → (attemptCount s.trace : Int) =
    attemptCount s0.trace + s.retry_times + (if s.deliverySuccessed then 1 else 0) +
      (if s.panicked then 1 else 0)
  failing : s.deliverySuccessed = false → s.retry_times ≤ max w.Callback.RetryTimes 0
  succeeded : s.deliverySuccessed = true → s.retry_times < w.Callback.RetryTimes
  died : s0.panicked = false → s.panicked = true →
    s.deliverySuccessed = false ∧ s.retry_times < w.Callback.RetryTimes
  allfail : (∀ j, (delivery (client (s0.calls + j))).1 = false) → s.deliverySuccessed = false

/-! ## Sample inputs -/

/-- A version string, a `CreateMsg` that copies the fields, and a parser that
rejects the Url `"://bad"` (missing protocol scheme) and accepts the others. -/
def sampleExtern : Extern :=
  ⟨"1.0", fun m => ⟨m.Topic, m.Partition, m.Offset, m.Key, m.Value⟩,
    fun u => decide (u ≠ "://bad")⟩

/-- A worker whose `Callback.Url` does not parse. -/
def badUrlWorker (RetryTimes : Int) (BypassFailed : Bool) : PusherWorker :=
  ⟨⟨"://bad", RetryTimes, 1000000000, BypassFailed, 1000000000⟩, ["t"], ["zk"], ""⟩

/-- A worker with the given `RetryTimes` and `BypassFailed`. -/
def sampleWorker (RetryTimes : Int) (BypassFailed : Bool) : PusherWorker :=
  ⟨⟨"http://callback/", RetryTimes, 1000000000, BypassFailed, 1000000000⟩, ["t"], ["zk"], ""⟩

/-- A message on topic "t", partition 0, at the given offset. -/
def sampleMessage (offset : Int) : ConsumerMessage := ⟨[], [], "t", 0, offset⟩

/-- An endpoint that answers 500 to the first `k` calls and 200 afterwards. -/
def failThenOk (k : Nat) : Nat → DoResult :=
  fun i => if i < k then DoResult.response 500 else DoResult.response 200

/-- An endpoint that always answers 200. -/
def alwaysOk : Nat → DoResult := fun _ => DoResult.response 200

/-- An endpoint that always answers 500. -/
def alwaysFail : Nat → DoResult := fun _ => DoResult.response 500

/-! ## Runs, and the accounting of the channel -/

theorem run_zero (w : PusherWorker) (x : Extern) (client : Nat → DoResult) (s : State) :
    run w x client 0 s = s := rfl

theorem run_succ (w : PusherWorker) (x : Extern) (client : Nat → DoResult) (k : Nat) (s : State) :
    run w x client (k + 1) s = step w x client (run w x client k s) := by
  simp only [run, Function.iterate_succ_apply']

theorem run_add (w : PusherWorker) (x : Extern) (client : Nat → DoResult) (a b : Nat) (s : State) :
    run w x client (a + b) s = run w x client b (run w x client a s) := by
  simp only [run, Nat.add_comm a b, Function.iterate_add_apply]

@[simp] theorem commits_append (a b : List Event) : commits (a ++ b) = commits a ++ commits b := by
  simp [commits]

@[simp] theorem commitSeqs_append (a b : List Event) :
    commitSeqs (a ++ b) = commitSeqs a ++ commitSeqs b := by
  simp [commitSeqs]

theorem streamInv_init (x : Extern) (msgs : List ConsumerMessage) : StreamInv msgs (init x msgs) := by
  constructor <;> simp [init, commits, commitSeqs, current]

@[simp] theorem Event.seq_unexpected (i : Nat) (m : ConsumerMessage) (a b c : Int) :
    (Event.unexpected i m a b c).seq = i := rfl

@[simp] theorem Event.seq_received (i : Nat) (m : Msg) : (Event.received i m).seq = i := rfl

@[simp] theorem Event.seq_attempt (i : Nat) (m : ConsumerMessage) (r : Request) (b : Bool) :
    (Event.attempt i m r b).seq = i := rfl

@[simp] theorem Event.seq_died (i : Nat) (m : ConsumerMessage) (r : Int) :
    (Event.died i m r).seq = i := rfl

@[simp] theorem Event.seq_bypass (i : Nat) (r : Int) : (Event.bypass i r).seq = i := rfl

@[simp] theorem Event.seq_sleep (i : Nat) (r : Int) : (Event.sleep i r).seq = i := rfl

@[simp] theorem Event.seq_commitUpto (i : Nat) (m : ConsumerMessage) :
    (Event.commitUpto i m).seq = i := rfl

theorem streamInv_step (w : PusherWorker) (x : Extern) (client : Nat → DoResult)
    (msgs : List ConsumerMessage) (s : State) (h : StreamInv msgs s) :
    StreamInv msgs (step w x client s) := by
  obtain ⟨h1, h2, h3, h4⟩ := h
  rcases s with ⟨loc, pending, offsets, eventCount, message, msg, suc, rt, pk, calls, seq, trace⟩
  have h4' : ∀ e ∈ trace, e.seq < seq + 1 := fun e he => Nat.lt_succ_of_lt (h4 e he)
  cases loc with
  | recv =>
    cases pending with
    | nil =>
      constructor <;> simp_all [step, current]
    | cons m rest =>
      simp only [step, receive]
      split <;>
      · constructor <;>
          simp_all [current, commits, commitSeqs, Event.commitMsg, Event.commitSeq,
            List.forall_mem_append, or_imp, forall_and]
  | inner =>
    simp only [step]
    split
    · constructor <;> simp_all [current]
    · split
      · simp only [attemptOnce]
        split <;>
        · constructor <;>
            simp_all [current, commits, commitSeqs, Event.commitMsg, Event.commitSeq,
              List.forall_mem_append, or_imp, forall_and]
      · constructor <;> simp_all [current]
  | check =>
    simp only [step]
    split <;>
    · constructor <;>
        simp_all [current, commits, commitSeqs, Event.commitMsg, Event.commitSeq,
          List.forall_mem_append, or_imp, forall_and]
  | commit =>
    simp only [step]
    constructor <;>
      simp_all [current, commits, commitSeqs, Event.commitMsg, Event.commitSeq,
        List.forall_mem_append, List.range_succ, or_imp, forall_and]
  | done =>
    constructor <;> simp_all [step, current]

theorem streamInv_run (w : PusherWorker) (x : Extern) (client : Nat → DoResult)
    (msgs : List ConsumerMessage) (k : Nat) : StreamInv msgs (work w x client msgs k) := by
  induction k with
  | zero => exact streamInv_init x msgs
  | succ k ih =>
    unfold work at ih ⊢
    rw [run_succ]
    exact streamInv_step w x client msgs _ ih


theorem snoc_eq_append_cons {α : Type} {tr pre post : List α} {e c : α}
    (h : tr ++ [e] = pre ++ c :: post) :
    (post = [] ∧ tr = pre ∧ e = c) ∨ (∃ post', post = post' ++ [e] ∧ tr = pre ++ c :: post') := by
  rcases List.eq_nil_or_concat post with hp | ⟨post', z, hp⟩
  · subst hp
    left
    have := List.append_inj' h rfl
    simp_all
  · subst hp
    right
    have h' : tr ++ [e] = (pre ++ c :: post') ++ [z] := by simpa using h
    have := List.append_inj' h' rfl
    simp_all

theorem commitsJustified_nil (w : PusherWorker) : CommitsJustified w [] := by
  intro pre post i m h
  simp at h

theorem commitsJustified_snoc (w : PusherWorker) (tr : List Event) (e : Event)
    (h : CommitsJustified w tr) (he : ∀ i m, e = Event.commitUpto i m → Justified w tr i m) :
    CommitsJustified w (tr ++ [e]) := by
  intro pre post i m heq
  rcases snoc_eq_append_cons heq with ⟨_, h1, h2⟩ | ⟨post', _, h1⟩
  · subst h1
    exact he i m h2
  · exact h pre post' i m h1

@[simp] theorem failedCount_nil (i : Nat) : failedCount i [] = 0 := rfl

@[simp] theorem failedCount_cons (i : Nat) (e : Event) (tr : List Event) :
    failedCount i (e :: tr) = failedCount i tr + (if e.isFailedAttempt i then 1 else 0) := by
  simp [failedCount, List.countP_cons]

@[simp] theorem failedCount_append (i : Nat) (a b : List Event) :
    failedCount i (a ++ b) = failedCount i a + failedCount i b := by
  simp [failedCount, List.countP_append]

theorem failedCount_eq_zero (i : Nat) (tr : List Event) (h : ∀ e ∈ tr, e.seq < i) :
    failedCount i tr = 0 := by
  unfold failedCount
  rw [List.countP_eq_zero]
  intro e he
  have := h e he
  cases e <;> simp_all [Event.isFailedAttempt]
  omega

theorem retryInv_init (w : PusherWorker) (x : Extern) (msgs : List ConsumerMessage) :
    RetryInv w (init x msgs) := by
  constructor <;> simp [init, current, commitsJustified_nil]

theorem retryInv_step (w : PusherWorker) (x : Extern) (client : Nat → DoResult)
    (msgs : List ConsumerMessage) (s : State) (hs : StreamInv msgs s) (h : RetryInv w s) :
    RetryInv w (step w x client s) := by
  obtain ⟨s1, s2, s3, s4⟩ := hs
  obtain ⟨h1, h2, h3, h4, h5, h6⟩ := h
  rcases s with ⟨loc, pending, offsets, eventCount, message, msg, suc, rt, pk, calls, seq, trace⟩
  dsimp only at s1 s2 s3 s4 h1 h2 h3 h4 h5 h6
  cases loc with
  | recv =>
    cases pending with
    | nil =>
      constructor <;> simp_all [step, current]
    | cons m rest =>
      simp only [step, receive]
      refine ⟨?_, ?_, ?_, ?_, ?_, ?_⟩
      · apply commitsJustified_snoc
        · split
          · apply commitsJustified_snoc
            · exact h1
            · intro i m' he; cases he
          · simpa using h1
        · intro i m' he; cases he
      · intro _
        have hz : failedCount seq trace = 0 := failedCount_eq_zero seq trace s4
        split <;> simp [Event.isFailedAttempt, hz]
      · simp
      · simp
      · simp
      · simp
  | inner =>
    have hpos : 1 ≤ seq := by simp [current] at s2; omega
    simp only [current, ne_eq, List.cons_ne_nil, not_false_eq_true, forall_true_left] at h2 h3 h4
    simp only [step]
    split
    · exact ⟨h1, fun _ => h2, fun _ => h3, fun _ => h4, h5, h6⟩
    split
    · rename_i hg
      simp only [Bool.and_eq_true, Bool.not_eq_true', decide_eq_true_eq] at hg
      obtain ⟨hsuc, hlt⟩ := hg
      simp only [attemptOnce]
      split
      · refine ⟨?_, ?_, ?_, ?_, ?_, ?_⟩
        · apply commitsJustified_snoc _ _ _ h1
          intro i m' he; cases he
        · intro _
          simp [Event.isFailedAttempt, h2]
        · intro _ hd
          obtain ⟨req, hr⟩ := h3 hd
          exact ⟨req, by simp [hr]⟩
        · intro _; exact h4
        · simp
        · simp
      · rename_i req hreq
        refine ⟨?_, ?_, ?_, ?_, ?_, ?_⟩
        · apply commitsJustified_snoc _ _ _ h1
          intro i m' he; cases he
        · intro _
          cases hd : (delivery (client calls)).1 <;>
            simp [Event.isFailedAttempt, hd, h2]
        · intro _ hd
          dsimp only at hd
          exact ⟨req, by simp [hd]⟩
        · intro _
          dsimp only
          split
          · exact h4
          · have := le_max_left w.Callback.RetryTimes 0
            omega
        · simp
        · simp
    · rename_i hg
      simp only [Bool.and_eq_true, Bool.not_eq_true', decide_eq_true_eq, not_and, not_lt] at hg
      refine ⟨h1, ?_, ?_, ?_, ?_, ?_⟩
      · intro _; exact h2
      · intro _; exact h3
      · intro _; exact h4
      · intro _ hsuc; exact hg hsuc
      · simp
  | check =>
    simp only [current, ne_eq, List.cons_ne_nil, not_false_eq_true, forall_true_left] at h2 h3 h4
    simp only [true_or, forall_true_left] at h5
    simp only [step]
    split
    · rename_i hb
      refine ⟨?_, ?_, ?_, ?_, ?_, ?_⟩
      · apply commitsJustified_snoc _ _ _ h1
        intro i m' he; cases he
      · intro _; simp [Event.isFailedAttempt, h2]
      · intro _ hd
        obtain ⟨req, hr⟩ := h3 hd
        exact ⟨req, by simp [hr]⟩
      · intro _; exact h4
      · intro _; exact h5
      · intro _; exact hb
    · refine ⟨?_, ?_, ?_, ?_, ?_, ?_⟩
      · apply commitsJustified_snoc _ _ _ h1
        intro i m' he; cases he
      · intro _; simp [Event.isFailedAttempt, h2]
      · intro _ hd
        obtain ⟨req, hr⟩ := h3 hd
        exact ⟨req, by simp [hr]⟩
      · intro _; exact h4
      · simp
      · simp
  | commit =>
    simp only [current, ne_eq, List.cons_ne_nil, not_false_eq_true, forall_true_left] at h2 h3 h4
    simp only [or_true, forall_true_left] at h5 h6
    simp only [step]
    refine ⟨?_, ?_, ?_, ?_, ?_, ?_⟩
    · apply commitsJustified_snoc _ _ _ h1
      intro i m' he
      cases he
      cases hd : suc
      · right
        refine ⟨h6, ?_⟩
        have h5' := h5 hd
        have : (0 : Int) ≤ rt := by rw [← h2]; exact Int.ofNat_nonneg _
        rw [h2]
        apply le_antisymm h4
        exact max_le h5' this
      · left
        exact h3 hd
    · simp [current]
    · simp [current]
    · simp [current]
    · simp
    · simp
  | done =>
    constructor <;> simp_all [step, current]

theorem retryInv_run (w : PusherWorker) (x : Extern) (client : Nat → DoResult)
    (msgs : List ConsumerMessage) (k : Nat) : RetryInv w (work w x client msgs k) := by
  induction k with
  | zero => exact retryInv_init w x msgs
  | succ k ih =>
    have hs := streamInv_run w x client msgs k
    unfold work at ih hs ⊢
    rw [run_succ]
    exact retryInv_step w x client msgs _ hs ih

theorem commitSeqs_length (tr : List Event) : (commitSeqs tr).length = (commits tr).length := by
  induction tr with
  | nil => rfl
  | cons e tr ih =>
    cases e <;> simp_all [commitSeqs, commits, Event.commitSeq, Event.commitMsg, List.filterMap_cons]

theorem getElem?_append_cons_length {α : Type} (a b : List α) (c : α) :
    (a ++ c :: b)[a.length]? = some c := by
  rw [List.getElem?_append_right (le_refl _)]
  simp

theorem take_length_of_append {α : Type} {c t l : List α} (h : c ++ t = l) :
    c = l.take c.length := by
  subst h
  simp

theorem range_eq_append_cons {n i : Nat} {a b : List Nat} (h : List.range n = a ++ i :: b) :
    i = a.length := by
  have hlen : a.length < n := by
    have := congrArg List.length h
    simp at this
    omega
  have h1 : (List.range n)[a.length]? = some a.length := List.getElem?_range hlen
  rw [h, getElem?_append_cons_length] at h1
  exact Option.some.inj h1

theorem commit_event_position {msgs : List ConsumerMessage} {s : State} (hs : StreamInv msgs s)
    {pre post : List Event} {i : Nat} {m : ConsumerMessage}
    (h : s.trace = pre ++ Event.commitUpto i m :: post) :
    i = (commits pre).length ∧ msgs[i]? = some m := by
  have h3 := hs.commit_seqs
  have h1 := hs.stream
  rw [h] at h3 h1
  simp only [commitSeqs_append, commits_append] at h3 h1
  have e1 : commitSeqs (Event.commitUpto i m :: post) = i :: commitSeqs post := by
    simp [commitSeqs, Event.commitSeq, List.filterMap_cons]
  have e2 : commits (Event.commitUpto i m :: post) = m :: commits post := by
    simp [commits, Event.commitMsg, List.filterMap_cons]
  rw [e1] at h3
  rw [e2] at h1
  have hi : i = (commits pre).length := by
    rw [← commitSeqs_length]
    exact range_eq_append_cons h3.symm
  refine ⟨hi, ?_⟩
  rw [← h1, hi, List.append_assoc, List.append_assoc, List.cons_append,
    getElem?_append_cons_length]

/-- C1: a `CommitUpto` for a message is issued only after a successful delivery
attempt for that very message (same channel position), or, with `BypassFailed`
set, after as many failed attempts for it as `RetryTimes` allows; the
justifying attempts all lie in the trace before the commit. -/
theorem commit_only_after_outcome (w : PusherWorker) (x : Extern) (client : Nat → DoResult)
    (msgs : List ConsumerMessage) (k : Nat) (pre post : List Event) (i : Nat)
    (m : ConsumerMessage)
    (h : (work w x client msgs k).trace = pre ++ Event.commitUpto i m :: post) :
    msgs[i]? = some m ∧
    ((∃ req, Event.attempt i m req true ∈ pre) ∨
      (w.Callback.BypassFailed = true ∧
        (failedCount i pre : Int) = max w.Callback.RetryTimes 0)) :=
  ⟨(commit_event_position (streamInv_run w x client msgs k) h).2,
    (retryInv_run w x client msgs k).justified pre post i m h⟩

/-- Witness for C1: three attempts (500, 500, 200) on the message at offset 10
with `RetryTimes = 5`; the commit is the seventh step. -/
theorem commit_only_after_outcome_witness :
    (work (sampleWorker 5 true) sampleExtern (failThenOk 2) [sampleMessage 10] 7).trace =
      (work (sampleWorker 5 true) sampleExtern (failThenOk 2) [sampleMessage 10] 6).trace ++
        Event.commitUpto 0 (sampleMessage 10) :: [] ∧
    ([sampleMessage 10][0]? = some (sampleMessage 10) ∧
      ((∃ req, Event.attempt 0 (sampleMessage 10) req true ∈
          (work (sampleWorker 5 true) sampleExtern (failThenOk 2) [sampleMessage 10] 6).trace) ∨
        ((sampleWorker 5 true).Callback.BypassFailed = true ∧
          (failedCount 0
            (work (sampleWorker 5 true) sampleExtern (failThenOk 2) [sampleMessage 10] 6).trace :
              Int) = max (sampleWorker 5 true).Callback.RetryTimes 0))) :=
  ⟨by decide,
    commit_only_after_outcome (sampleWorker 5 true) sampleExtern (failThenOk 2)
      [sampleMessage 10] 7 _ [] 0 (sampleMessage 10) (by decide)⟩

/-- C6: the messages passed to `CommitUpto` so far are an initial segment of
the received messages, in receipt order, and the calls carry the channel
positions `0, 1, 2, ...` without repetition. -/
theorem commits_in_receipt_order (w : PusherWorker) (x : Extern) (client : Nat → DoResult)
    (msgs : List ConsumerMessage) (k : Nat) :
    commits (work w x client msgs k).trace <+: msgs ∧
    commits (work w x client msgs k).trace =
      msgs.take (commits (work w x client msgs k).trace).length ∧
    commitSeqs (work w x client msgs k).trace =
      List.range (commits (work w x client msgs k).trace).length ∧
    (commitSeqs (work w x client msgs k).trace).Nodup := by
  have hs := streamInv_run w x client msgs k
  have hp : commits (work w x client msgs k).trace <+: msgs :=
    ⟨current (work w x client msgs k) ++ (work w x client msgs k).pending, by
      simpa using hs.stream⟩
  refine ⟨hp, ?_, hs.commit_seqs, ?_⟩
  · obtain ⟨t, ht⟩ := hp
    exact take_length_of_append ht
  · rw [hs.commit_seqs]
    exact List.nodup_range _

/-! ## The delivery result and the offset check -/

theorem wrap64_of_inInt64 {v : Int} (h : InInt64 v) : wrap64 v = v := by
  unfold wrap64
  unfold InInt64 at h
  omega

theorem wrap64_pred_eq_iff {p off : Int} (hp : InInt64 p) (ho : InInt64 off) :
    p = wrap64 (off - 1) ↔ off = wrap64 (p + 1) := by
  unfold wrap64
  unfold InInt64 at hp ho
  omega

theorem read_of_entry_none {o : Offsets} {t : String} {p : Int} (h : o.entry t p = none) :
    o.read t p = 0 := by
  simp [Offsets.read, h]

theorem read_of_entry_some {o : Offsets} {t : String} {p v : Int} (h : o.entry t p = some v) :
    o.read t p = v := by
  simp [Offsets.read, h]

@[simp] theorem entry_empty (t : String) (p : Int) : Offsets.empty.entry t p = none := rfl

@[simp] theorem entry_ensure (o : Offsets) (topic t : String) (p : Int) :
    (o.ensure topic).entry t p = o.entry t p := by
  unfold Offsets.ensure Offsets.entry
  cases h : o topic with
  | none =>
    by_cases ht : t = topic
    · subst ht; simp [h]
    · simp [ht]
  | some inner => simp

theorem entry_set (o : Offsets) (topic : String) (partition offset : Int) (t : String) (p : Int) :
    (o.set topic partition offset).entry t p =
      if t = topic ∧ p = partition then some offset else o.entry t p := by
  unfold Offsets.set Offsets.entry
  by_cases ht : t = topic
  · subst ht
    by_cases hp : p = partition
    · simp [hp]
    · simp [hp]
  · simp [ht]

/-- C8: `delivery` reports success exactly when `client.Do` returned a response
(no transport error) whose status code is 200; the returned error is non-nil
exactly when `client.Do` failed, and then success is false.  The function
consumes the result of one `client.Do` call. -/
theorem delivery_success_iff_status_200 (r : DoResult) :
    ((delivery r).1 = true ↔ r = DoResult.response 200) ∧
    (∀ code, code ≠ 200 → (delivery (DoResult.response code)).1 = false) ∧
    (∀ err, (delivery (DoResult.failed err)).1 = false) ∧
    ((delivery r).2 ≠ none ↔ ∃ err, r = DoResult.failed err) := by
  cases r with
  | response c => simp [delivery]
  | failed e => simp [delivery]

/-- C7, as stated, fails: after a message at offset 0 (stored baseline `0`) the
message at offset 5 is not reported, although `5 ≠ 0 + 1`.  In `work`, with
`BypassFailed` on and an endpoint that answers 200, the messages at offsets 0
and 5 are both processed and committed and nothing is logged by the check. -/
theorem unexpectedOffset_zero_baseline_counterexample :
    (Offsets.empty.set "t" 0 0).entry "t" 0 = some 0 ∧
    unexpectedOffset (Offsets.empty.set "t" 0 0) (sampleMessage 5) = false ∧
    (sampleMessage 5).Offset ≠ 0 + 1 ∧
    (work (sampleWorker 1 true) sampleExtern alwaysOk [sampleMessage 0, sampleMessage 5]
      11).loc = .done ∧
    commits (work (sampleWorker 1 true) sampleExtern alwaysOk [sampleMessage 0, sampleMessage 5]
      11).trace = [sampleMessage 0, sampleMessage 5] ∧
    (work (sampleWorker 1 true) sampleExtern alwaysOk [sampleMessage 0, sampleMessage 5]
      11).trace.filter Event.isUnexpected = [] ∧
    ¬ (∀ (o : Offsets) (message : ConsumerMessage) (p : Int),
        InInt64 p → InInt64 message.Offset →
        o.entry message.Topic message.Partition = some p →
        (unexpectedOffset o message = true ↔ message.Offset ≠ p + 1)) := by
  refine ⟨by decide, by decide, by decide, by decide, by decide, by decide, ?_⟩
  intro h
  have h0 := h (Offsets.empty.set "t" 0 0) (sampleMessage 5) 0
    ⟨by decide, by decide⟩ ⟨by decide, by decide⟩ (by decide)
  revert h0
  decide

/-- C7, amended: without an entry for the message's `(topic, partition)` the
check reports nothing; with a stored offset `p` it reports exactly when
`p ≠ 0` and the new offset is not `p + 1` (in `int64` arithmetic, which is
`p + 1` itself unless `p` is the largest `int64`). -/
theorem unexpectedOffset_iff (o : Offsets) (message : ConsumerMessage)
    (hoff : InInt64 message.Offset) :
    (o.entry message.Topic message.Partition = none → unexpectedOffset o message = false) ∧
    (∀ p, InInt64 p → o.entry message.Topic message.Partition = some p →
      ((unexpectedOffset o message = true ↔ p ≠ 0 ∧ message.Offset ≠ wrap64 (p + 1)) ∧
       (p + 1 < 2 ^ 63 →
         (unexpectedOffset o message = true ↔ p ≠ 0 ∧ message.Offset ≠ p + 1)))) := by
  constructor
  · intro h
    simp [unexpectedOffset, read_of_entry_none h]
  · intro p hp h
    have key : unexpectedOffset o message = true ↔ p ≠ 0 ∧ message.Offset ≠ wrap64 (p + 1) := by
      simp only [unexpectedOffset, read_of_entry_some h, Bool.and_eq_true, decide_eq_true_eq,
        ne_eq, wrap64_pred_eq_iff hp hoff]
    refine ⟨key, ?_⟩
    intro hlt
    have hw : wrap64 (p + 1) = p + 1 := wrap64_of_inInt64 ⟨by unfold InInt64 at hp; omega, hlt⟩
    rw [key, hw]

/-- Witness for C7: after offset 5 the offset 7 is reported and the offset 6 is
not. -/
theorem unexpectedOffset_iff_witness :
    InInt64 (sampleMessage 7).Offset ∧
    unexpectedOffset (Offsets.empty.set "t" 0 5) (sampleMessage 7) = true ∧
    unexpectedOffset (Offsets.empty.set "t" 0 5) (sampleMessage 6) = false ∧
    unexpectedOffset Offsets.empty (sampleMessage 5) = false :=
  have h7 : InInt64 (sampleMessage 7).Offset := ⟨by decide, by decide⟩
  ⟨h7,
    ((((unexpectedOffset_iff (Offsets.empty.set "t" 0 5) (sampleMessage 7) h7).2 5
      ⟨by decide, by decide⟩ (by decide)).2 (by decide)).2 ⟨by decide, by decide⟩),
    by decide, by decide⟩

/-! ## The outer loop without `BypassFailed` -/

@[simp] theorem attemptCount_nil : attemptCount [] = 0 := rfl

@[simp] theorem attemptCount_cons (e : Event) (tr : List Event) :
    attemptCount (e :: tr) = attemptCount tr + (if e.isAttempt then 1 else 0) := by
  simp [attemptCount, List.countP_cons]

@[simp] theorem attemptCount_append (a b : List Event) :
    attemptCount (a ++ b) = attemptCount a + attemptCount b := by
  simp [attemptCount, List.countP_append]

theorem retrying_receive (w : PusherWorker) (x : Extern) (client : Nat → DoResult) (s0 : State)
    (m : ConsumerMessage) (rest : List ConsumerMessage)
    (hloc : s0.loc = .recv) (hpend : s0.pending = m :: rest) :
    Retrying w client s0 m rest (step w x client s0) := by
  rcases s0 with ⟨loc, pending, offsets, eventCount, message, msg, suc, rt, pk, calls, seq, trace⟩
  dsimp only at hloc hpend
  subst hloc hpend
  simp only [step, receive]
  constructor <;> try simp
  · split <;> simp [commits, Event.commitMsg]
  · intro hpk
    split <;> simp [Event.isAttempt, hpk]
  · intro hpk hpk'
    simp [hpk] at hpk'

theorem retrying_step (w : PusherWorker) (x : Extern) (client : Nat → DoResult) (s0 : State)
    (m : ConsumerMessage) (rest : List ConsumerMessage) (s : State)
    (hb : w.Callback.BypassFailed = false) (h : Retrying w client s0 m rest s) :
    Retrying w client s0 m rest (step w x client s) := by
  obtain ⟨h1, h2, h3, h4, h5, h6, h7, h8, h9, h10, h11, h13, h12⟩ := h
  rcases s with ⟨loc, pending, offsets, eventCount, message, msg, suc, rt, pk, calls, seq, trace⟩
  dsimp only at h1 h2 h3 h4 h5 h6 h7 h8 h9 h10 h11 h12 h13
  rcases h1 with h1 | h1
  · subst h1
    simp only [step]
    split
    · exact ⟨by simp, h2, h3, h4, h5, h6, h7, h8, h9, h10, h11, h13, h12⟩
    rename_i hpk
    simp only [Bool.not_eq_true] at hpk
    subst hpk
    split
    · rename_i hg
      simp only [Bool.and_eq_true, Bool.not_eq_true', decide_eq_true_eq] at hg
      obtain ⟨hsuc, hlt⟩ := hg
      subst hsuc
      simp only [attemptOnce]
      split
      · refine ⟨by simp, h2, h3, h4, by simpa [commits, Event.commitMsg] using h5, h6,
          h7, h8, ?_, h10, h11, fun _ _ => ⟨rfl, hlt⟩, h12⟩
        intro h0
        have h9' := h9 h0
        simp only [attemptCount_append, attemptCount_cons, attemptCount_nil, Event.isAttempt]
        simp at h9' ⊢
        omega
      · refine ⟨by simp, h2, h3, h4, by simpa [commits, Event.commitMsg] using h5, h6,
          Nat.le_succ_of_le h7, ?_, ?_, ?_, ?_, ?_, ?_⟩
        · dsimp only; split <;> omega
        · intro h0
          have h9' := h9 h0
          simp only [attemptCount_append, attemptCount_cons, attemptCount_nil, Event.isAttempt]
          simp at h9'
          cases hd : (delivery (client calls)).1 <;> simp <;> omega
        · intro hd
          dsimp only at hd ⊢
          have := le_max_left w.Callback.RetryTimes 0
          simp [hd]
          omega
        · intro hd
          dsimp only at hd ⊢
          simp [hd, hlt]
        · intro _ hpk
          simp at hpk
        · intro hall
          dsimp only
          obtain ⟨d, hd⟩ := Nat.exists_eq_add_of_le h7
          rw [hd]
          exact hall d
    · exact ⟨by simp, h2, h3, h4, h5, h6, h7, h8, h9, h10, h11, h13, h12⟩
  · subst h1
    simp only [step, hb]
    refine ⟨by simp, h2, h3, h4, by simpa [commits, Event.commitMsg] using h5, h6, h7, h8, ?_,
      h10, h11, h13, h12⟩
    intro h0
    simpa [Event.isAttempt] using h9 h0

theorem retrying_run (w : PusherWorker) (x : Extern) (client : Nat → DoResult) (s0 : State)
    (m : ConsumerMessage) (rest : List ConsumerMessage)
    (hb : w.Callback.BypassFailed = false)
    (hloc : s0.loc = .recv) (hpend : s0.pending = m :: rest) (k : Nat) :
    Retrying w client s0 m rest (run w x client (k + 1) s0) := by
  induction k with
  | zero => exact retrying_receive w x client s0 m rest hloc hpend
  | succ k ih =>
    rw [run_succ]
    exact retrying_step w x client s0 m rest _ hb ih

theorem run_closed_channel (w : PusherWorker) (x : Extern) (client : Nat → DoResult) (k : Nat) :
    (work w x client [] k).trace = [] ∧ (work w x client [] k).offsets = Offsets.empty ∧
    (work w x client [] k).seq = 0 ∧ (work w x client [] k).pending = [] ∧
    ((work w x client [] k).loc = .recv ∨ (work w x client [] k).loc = .done) := by
  induction k with
  | zero => simp [work, run_zero, init]
  | succ k ih =>
    unfold work at ih ⊢
    rw [run_succ]
    generalize run w x client k (init x []) = s at ih
    obtain ⟨h1, h2, h3, h4, h5⟩ := ih
    rcases s with ⟨loc, pending, offsets, eventCount, message, msg, suc, rt, pk, calls, seq, trace⟩
    dsimp only at h1 h2 h3 h4 h5
    subst h1 h2 h3 h4
    rcases h5 with h5 | h5 <;> subst h5 <;> simp [step]

/-- Without `BypassFailed` nothing is committed, no map entry is written, only
the first message is ever taken, and at most `max(RetryTimes, 0)` delivery
attempts are made. -/
theorem noBypass_run (w : PusherWorker) (x : Extern) (client : Nat → DoResult)
    (msgs : List ConsumerMessage) (k : Nat) (hb : w.Callback.BypassFailed = false) :
    commits (work w x client msgs k).trace = [] ∧
    (∀ t p, (work w x client msgs k).offsets.entry t p = none) ∧
    (attemptCount (work w x client msgs k).trace : Int) ≤ max w.Callback.RetryTimes 0 ∧
    (work w x client msgs k).loc ≠ .commit ∧
    (work w x client msgs k).seq ≤ 1 ∧
    (work w x client msgs k).pending.length + 1 ≥ msgs.length ∧
    (0 < k → msgs ≠ [] →
      ((work w x client msgs k).loc = .inner ∨ (work w x client msgs k).loc = .check)) := by
  cases msgs with
  | nil =>
    obtain ⟨h1, h2, h3, h4, h5⟩ := run_closed_channel w x client k
    refine ⟨by simp [h1, commits], by simp [h2], by simp [h1], ?_, by simp [h3], by simp, by simp⟩
    rcases h5 with h5 | h5 <;> simp [h5]
  | cons m rest =>
    cases k with
    | zero => simp [work, run_zero, init, commits]
    | succ k =>
      have h := retrying_run w x client (init x (m :: rest)) m rest hb rfl rfl k
      unfold work
      generalize run w x client (k + 1) (init x (m :: rest)) = s at h
      obtain ⟨h1, h2, h3, h4, h5, h6, h7, h8, h9, h10, h11, h13, h12⟩ := h
      refine ⟨by simpa [init, commits] using h5, by simpa [init] using h6, ?_, ?_,
        by simpa [init] using h4.le, by simp [h2], fun _ _ => h1⟩
      · have h9' := h9 rfl
        simp only [init, attemptCount_nil, Nat.cast_zero, zero_add] at h9'
        rw [h9']
        have hmax := le_max_left w.Callback.RetryTimes 0
        cases hp : s.panicked
        · cases hd : s.deliverySuccessed
          · simpa using h10 hd
          · have := h11 hd
            simp
            omega
        · obtain ⟨hd, hlt⟩ := h13 rfl hp
          simp [hd]
          omega
      · rcases h1 with h1 | h1 <;> simp [h1]

/-- C10: with `BypassFailed` off, whatever the messages and the delivery
results (a success on the first attempt included), the outer `for` entered for
the first message is never left: no `CommitUpto` is issued, no map entry is
written, no second message is taken, and at most `max(RetryTimes, 0)` delivery
attempts are ever made. -/
theorem no_bypass_never_leaves_first_message (w : PusherWorker) (x : Extern)
    (client : Nat → DoResult) (msgs : List ConsumerMessage) (k : Nat)
    (hb : w.Callback.BypassFailed = false) :
    commits (work w x client msgs k).trace = [] ∧
    (∀ t p, (work w x client msgs k).offsets.entry t p = none) ∧
    (attemptCount (work w x client msgs k).trace : Int) ≤ max w.Callback.RetryTimes 0 ∧
    (work w x client msgs k).loc ≠ .commit ∧
    (work w x client msgs k).seq ≤ 1 ∧
    (work w x client msgs k).pending.length + 1 ≥ msgs.length ∧
    (0 < k → msgs ≠ [] →
      ((work w x client msgs k).loc = .inner ∨ (work w x client msgs k).loc = .check)) :=
  noBypass_run w x client msgs k hb

/-- Witness for C10: an endpoint that answers 200 at once, `RetryTimes = 3`,
two messages, forty steps. -/
theorem no_bypass_never_leaves_first_message_witness :
    (sampleWorker 3 false).Callback.BypassFailed = false ∧
    commits (work (sampleWorker 3 false) sampleExtern alwaysOk
      [sampleMessage 10, sampleMessage 11] 40).trace = [] ∧
    (attemptCount (work (sampleWorker 3 false) sampleExtern alwaysOk
      [sampleMessage 10, sampleMessage 11] 40).trace : Int) ≤ 3 ∧
    (work (sampleWorker 3 false) sampleExtern alwaysOk
      [sampleMessage 10, sampleMessage 11] 40).seq ≤ 1 :=
  have h := no_bypass_never_leaves_first_message (sampleWorker 3 false) sampleExtern alwaysOk
    [sampleMessage 10, sampleMessage 11] 40 rfl
  ⟨rfl, h.1, h.2.2.1, h.2.2.2.2.1⟩

/-- C4: with `BypassFailed` off and a failing endpoint, from the state `s0` in
which message `m` is taken, every later state has the `CommitUpto` calls and
the map entries of `s0`, still has every message after `m` pending, and is
inside the retry loop with `deliverySuccessed = false`. -/
theorem no_bypass_all_failed_never_advances (w : PusherWorker) (x : Extern)
    (client : Nat → DoResult) (s0 : State) (m : ConsumerMessage) (rest : List ConsumerMessage)
    (k : Nat)
    (hb : w.Callback.BypassFailed = false)
    (hloc : s0.loc = .recv) (hpend : s0.pending = m :: rest)
    (hfail : ∀ j, (delivery (client (s0.calls + j))).1 = false) :
    commits (run w x client k s0).trace = commits s0.trace ∧
    (∀ t p, (run w x client k s0).offsets.entry t p = s0.offsets.entry t p) ∧
    ((run w x client k s0).pending = m :: rest ∨ (run w x client k s0).pending = rest) ∧
    (run w x client k s0).loc ≠ .commit ∧
    (run w x client k s0).seq ≤ s0.seq + 1 ∧
    (0 < k → (run w x client k s0).deliverySuccessed = false ∧
      (run w x client k s0).message = m ∧
      ((run w x client k s0).loc = .inner ∨ (run w x client k s0).loc = .check)) := by
  cases k with
  | zero => simp [run_zero, hloc, hpend]
  | succ k =>
    have h := retrying_run w x client s0 m rest hb hloc hpend k
    generalize run w x client (k + 1) s0 = s at h
    obtain ⟨h1, h2, h3, h4, h5, h6, h7, h8, h9, h10, h11, h13, h12⟩ := h
    refine ⟨h5, h6, Or.inr h2, ?_, h4.le, fun _ => ⟨h12 hfail, h3, h1⟩⟩
    rcases h1 with h1 | h1 <;> simp [h1]

/-- Witness for C4: an endpoint that always answers 500, `RetryTimes = 3`. -/
theorem no_bypass_all_failed_never_advances_witness :
    (sampleWorker 3 false).Callback.BypassFailed = false ∧
    (init sampleExtern [sampleMessage 10, sampleMessage 11]).loc = .recv ∧
    (init sampleExtern [sampleMessage 10, sampleMessage 11]).pending =
      sampleMessage 10 :: [sampleMessage 11] ∧
    (∀ j, (delivery (alwaysFail
      ((init sampleExtern [sampleMessage 10, sampleMessage 11]).calls + j))).1 = false) ∧
    commits (run (sampleWorker 3 false) sampleExtern alwaysFail 40
      (init sampleExtern [sampleMessage 10, sampleMessage 11])).trace = [] ∧
    (run (sampleWorker 3 false) sampleExtern alwaysFail 40
      (init sampleExtern [sampleMessage 10, sampleMessage 11])).pending = [sampleMessage 11] :=
  have hf : ∀ j, (delivery (alwaysFail
      ((init sampleExtern [sampleMessage 10, sampleMessage 11]).calls + j))).1 = false :=
    fun _ => rfl
  have h := no_bypass_all_failed_never_advances (sampleWorker 3 false) sampleExtern alwaysFail
    (init sampleExtern [sampleMessage 10, sampleMessage 11]) (sampleMessage 10)
    [sampleMessage 11] 40 rfl rfl rfl hf
  ⟨rfl, rfl, rfl, hf, h.1, by decide⟩

/-- C2 fails on the code when `BypassFailed` is off: with `RetryTimes = 5` and
the message at offset 10 answered 500, 500, 200, the three attempts 0, 1, 2
are made, the third succeeds, and then the worker sleeps (twice within eight
steps) and never commits. -/
theorem success_without_bypass_never_commits :
    (∀ k, commits (work (sampleWorker 5 false) sampleExtern (failThenOk 2)
      [sampleMessage 10] k).trace = []) ∧
    attempts 0 (work (sampleWorker 5 false) sampleExtern (failThenOk 2)
      [sampleMessage 10] 8).trace = [(0, false), (1, false), (2, true)] ∧
    sleepCount (work (sampleWorker 5 false) sampleExtern (failThenOk 2)
      [sampleMessage 10] 8).trace = 2 ∧
    (work (sampleWorker 5 false) sampleExtern (failThenOk 2)
      [sampleMessage 10] 8).deliverySuccessed = true :=
  ⟨fun k => (noBypass_run (sampleWorker 5 false) sampleExtern (failThenOk 2)
      [sampleMessage 10] k rfl).1, by decide, by decide, by decide⟩

/-- C5 fails on the code: with `RetryTimes = 3`, `BypassFailed` off and an
endpoint that always answers 500, no more than three attempts are ever made;
after twelve steps the worker has slept four times and the attempts are still
the first three, numbered 0, 1, 2. -/
theorem sleep_does_not_restart_attempts :
    (∀ k, attemptCount (work (sampleWorker 3 false) sampleExtern alwaysFail
      [sampleMessage 10] k).trace ≤ 3) ∧
    attempts 0 (work (sampleWorker 3 false) sampleExtern alwaysFail
      [sampleMessage 10] 12).trace = [(0, false), (1, false), (2, false)] ∧
    sleepCount (work (sampleWorker 3 false) sampleExtern alwaysFail
      [sampleMessage 10] 12).trace = 4 ∧
    (work (sampleWorker 3 false) sampleExtern alwaysFail [sampleMessage 10] 12).retry_times = 3 := by
  refine ⟨fun k => ?_, by decide, by decide, by decide⟩
  have h := (noBypass_run (sampleWorker 3 false) sampleExtern alwaysFail
    [sampleMessage 10] k rfl).2.2.1
  have e : max (sampleWorker 3 false).Callback.RetryTimes 0 = 3 := by decide
  rw [e] at h
  exact_mod_cast h

/-! ## The retry loop, attempt by attempt -/

/-- The events of `d` consecutive failed attempts numbered `r, r+1, ...`. -/
theorem run_failed_attempts (w : PusherWorker) (x : Extern) (client : Nat → DoResult) (d : Nat)
    (s : State) (hloc : s.loc = .inner) (hsuc : s.deliverySuccessed = false)
    (hnp : s.panicked = false) (hurl : 0 < d → x.UrlParses w.Callback.Url = true)
    (hle : s.retry_times + d ≤ w.Callback.RetryTimes)
    (hfail : ∀ j, j < d → (delivery (client (s.calls + j))).1 = false) :
    run w x client d s =
      { s with
        retry_times := s.retry_times + d
        calls := s.calls + d
        trace := s.trace ++ (List.range d).map (fun j =>
          Event.attempt (s.seq - 1) s.message
            (acceptedRequest w x s.msg (s.retry_times + (j : Int))) false) } := by
  induction d with
  | zero => simp [run_zero]
  | succ d ih =>
    have hu := hurl (Nat.succ_pos d)
    rw [run_succ, ih (fun _ => hu) (by push_cast at hle; omega)
      (fun j hj => hfail j (Nat.lt_succ_of_lt hj))]
    have hg : s.retry_times + (d : Int) < w.Callback.RetryTimes := by push_cast at hle; omega
    have hf := hfail d (Nat.lt_succ_self d)
    simp only [step, hloc, hsuc, hnp, hg, attemptOnce, deliveryRequest, hu, hf, List.range_succ,
      List.map_append]
    simp [add_assoc]

theorem run_three (w : PusherWorker) (x : Extern) (client : Nat → DoResult) (s : State) :
    run w x client 3 s = step w x client (step w x client (step w x client s)) := rfl

theorem run_one (w : PusherWorker) (x : Extern) (client : Nat → DoResult) (s : State) :
    run w x client 1 s = step w x client s := rfl

/-- C3: with `BypassFailed` on, `RetryTimes = n ≥ 0`, a `Callback.Url` that
parses (needed only when `n > 0`, so that `delivery` returns) and `n` failing
calls, taking message `m` leads in `n + 4` steps back to the head of the
`range` loop: the trace gained the offset log (if any), the receive log,
exactly `n` failed attempts numbered `0 .. n-1`, the bypass log and one
`CommitUpto(m)`, and no sleep; the map entry of `m` is its offset. -/
theorem bypass_commits_after_retry_times_failures (w : PusherWorker) (x : Extern)
    (client : Nat → DoResult) (s0 : State) (m : ConsumerMessage) (rest : List ConsumerMessage)
    (n : Nat)
    (hb : w.Callback.BypassFailed = true) (hn : w.Callback.RetryTimes = (n : Int))
    (hurl : 0 < n → x.UrlParses w.Callback.Url = true)
    (hloc : s0.loc = .recv) (hpend : s0.pending = m :: rest) (hnp : s0.panicked = false)
    (hfail : ∀ j, j < n → (delivery (client (s0.calls + j))).1 = false) :
    (run w x client (n + 4) s0).loc = .recv ∧
    (run w x client (n + 4) s0).pending = rest ∧
    (run w x client (n + 4) s0).panicked = false ∧
    (run w x client (n + 4) s0).trace =
      s0.trace ++ offsetLog (s0.offsets.ensure m.Topic) s0.seq m ++
        [Event.received s0.seq (x.CreateMsg m)] ++
        failedAttemptEvents w x s0.seq m n ++
        [Event.bypass s0.seq n, Event.commitUpto s0.seq m] ∧
    (run w x client (n + 4) s0).calls = s0.calls + n ∧
    (run w x client (n + 4) s0).offsets.entry m.Topic m.Partition = some m.Offset := by
  have e : n + 4 = 1 + n + 3 := by omega
  have h1 : run w x client 1 s0 = receive x s0 m rest := by
    simp [run_one, step, hloc, hpend]
  have h2 := run_failed_attempts w x client n (receive x s0 m rest) rfl rfl
    (by simpa [receive] using hnp) hurl
    (by simp [receive, hn]) (by simpa [receive] using hfail)
  rw [e, run_add, run_add, h1, h2, run_three]
  simp [step, receive, hb, hn, hnp, offsetLog, failedAttemptEvents, entry_set]

/-- Witness for C3: `RetryTimes = 3`, an endpoint that always answers 500. -/
theorem bypass_commits_after_retry_times_failures_witness :
    (sampleWorker 3 true).Callback.BypassFailed = true ∧
    (sampleWorker 3 true).Callback.RetryTimes = ((3 : Nat) : Int) ∧
    (0 < 3 → sampleExtern.UrlParses (sampleWorker 3 true).Callback.Url = true) ∧
    (init sampleExtern [sampleMessage 10, sampleMessage 11]).loc = .recv ∧
    (init sampleExtern [sampleMessage 10, sampleMessage 11]).pending =
      sampleMessage 10 :: [sampleMessage 11] ∧
    (init sampleExtern [sampleMessage 10, sampleMessage 11]).panicked = false ∧
    (∀ j, j < 3 → (delivery (alwaysFail
      ((init sampleExtern [sampleMessage 10, sampleMessage 11]).calls + j))).1 = false) ∧
    (run (sampleWorker 3 true) sampleExtern alwaysFail (3 + 4)
      (init sampleExtern [sampleMessage 10, sampleMessage 11])).loc = .recv ∧
    (run (sampleWorker 3 true) sampleExtern alwaysFail (3 + 4)
      (init sampleExtern [sampleMessage 10, sampleMessage 11])).pending = [sampleMessage 11] ∧
    attempts 0 (run (sampleWorker 3 true) sampleExtern alwaysFail (3 + 4)
      (init sampleExtern [sampleMessage 10, sampleMessage 11])).trace =
        [(0, false), (1, false), (2, false)] ∧
    commits (run (sampleWorker 3 true) sampleExtern alwaysFail (3 + 4)
      (init sampleExtern [sampleMessage 10, sampleMessage 11])).trace = [sampleMessage 10] :=
  have hu : 0 < 3 → sampleExtern.UrlParses (sampleWorker 3 true).Callback.Url = true :=
    fun _ => by decide
  have hf : ∀ j, j < 3 → (delivery (alwaysFail
      ((init sampleExtern [sampleMessage 10, sampleMessage 11]).calls + j))).1 = false :=
    fun _ _ => rfl
  have h := bypass_commits_after_retry_times_failures (sampleWorker 3 true) sampleExtern
    alwaysFail (init sampleExtern [sampleMessage 10, sampleMessage 11]) (sampleMessage 10)
    [sampleMessage 11] 3 rfl rfl hu rfl rfl rfl hf
  ⟨rfl, rfl, hu, rfl, rfl, rfl, hf, h.1, h.2.1, by decide, by decide⟩

/-! ## The stored offsets -/

theorem step_offsets (w : PusherWorker) (x : Extern) (client : Nat → DoResult) (s : State) :
    (s.loc ≠ .commit ∧ commits (step w x client s).trace = commits s.trace ∧
      ∀ t p, (step w x client s).offsets.entry t p = s.offsets.entry t p) ∨
    (s.loc = .commit ∧ commits (step w x client s).trace = commits s.trace ++ [s.message] ∧
      ∀ t p, (step w x client s).offsets.entry t p =
        if t = s.message.Topic ∧ p = s.message.Partition then some s.message.Offset
        else s.offsets.entry t p) := by
  rcases s with ⟨loc, pending, offsets, eventCount, message, msg, suc, rt, pk, calls, seq, trace⟩
  cases loc with
  | recv =>
    left
    cases pending with
    | nil => simp [step]
    | cons m rest =>
      simp only [step, receive]
      split <;> simp [commits, Event.commitMsg]
  | inner =>
    left
    simp only [step]
    split
    · simp
    · split
      · simp only [attemptOnce]
        split <;> simp [commits, Event.commitMsg]
      · simp
  | check =>
    left
    simp only [step]
    split <;> simp [commits, Event.commitMsg]
  | commit =>
    right
    simp [step, commits, Event.commitMsg, entry_set]
  | done =>
    left
    simp [step]

theorem lastOffset_nil (t : String) (p : Int) : lastOffset [] t p = none := rfl

theorem lastOffset_snoc (ms : List ConsumerMessage) (m : ConsumerMessage) (t : String) (p : Int) :
    lastOffset (ms ++ [m]) t p =
      if t = m.Topic ∧ p = m.Partition then some m.Offset else lastOffset ms t p := by
  unfold lastOffset
  rw [List.filter_append]
  by_cases h : m.Topic = t ∧ m.Partition = p
  · have hf : List.filter (fun m => decide (m.Topic = t ∧ m.Partition = p)) [m] = [m] :=
      List.filter_cons_of_pos (by simpa using h)
    rw [hf, List.getLast?_concat, if_pos ⟨h.1.symm, h.2.symm⟩]
    rfl
  · have hf : List.filter (fun m => decide (m.Topic = t ∧ m.Partition = p)) [m] = [] :=
      List.filter_cons_of_neg (by simpa using h)
    rw [hf, List.append_nil, if_neg (fun hh => h ⟨hh.1.symm, hh.2.symm⟩)]

theorem lastOffset_mem {ms : List ConsumerMessage} {t : String} {p v : Int}
    (h : lastOffset ms t p = some v) :
    ∃ m ∈ ms, m.Topic = t ∧ m.Partition = p ∧ m.Offset = v := by
  unfold lastOffset at h
  simp only [Option.map_eq_some'] at h
  obtain ⟨m, hm, hv⟩ := h
  have hmem := List.mem_of_getLast?_eq_some hm
  simp only [List.mem_filter, decide_eq_true_eq] at hmem
  exact ⟨m, hmem.1, hmem.2.1, hmem.2.2, hv⟩

theorem offsets_eq_lastOffset (w : PusherWorker) (x : Extern) (client : Nat → DoResult)
    (msgs : List ConsumerMessage) (k : Nat) (t : String) (p : Int) :
    (work w x client msgs k).offsets.entry t p =
      lastOffset (commits (work w x client msgs k).trace) t p := by
  induction k with
  | zero => simp [work, run_zero, init, commits, lastOffset_nil]
  | succ k ih =>
    unfold work at ih ⊢
    rw [run_succ]
    rcases step_offsets w x client (run w x client k (init x msgs)) with ⟨_, h2, h3⟩ | ⟨_, h2, h3⟩
    · rw [h2, h3, ih]
    · rw [h2, h3, ih, lastOffset_snoc]

theorem entry_step_mono (w : PusherWorker) (x : Extern) (client : Nat → DoResult)
    (msgs : List ConsumerMessage) (hsorted : PartitionSorted msgs) (k : Nat) (t : String)
    (p v : Int) (h : (work w x client msgs k).offsets.entry t p = some v) :
    ∃ v', (work w x client msgs (k + 1)).offsets.entry t p = some v' ∧ v ≤ v' := by
  have hl := offsets_eq_lastOffset w x client msgs k t p
  have hs := (streamInv_run w x client msgs (k + 1)).stream
  unfold work at h hl hs ⊢
  rw [run_succ] at hs ⊢
  rcases step_offsets w x client (run w x client k (init x msgs)) with ⟨_, h2, h3⟩ | ⟨_, h2, h3⟩
  · exact ⟨v, by rw [h3, h], le_refl v⟩
  · rw [h3]
    by_cases hm : t = (run w x client k (init x msgs)).message.Topic ∧
        p = (run w x client k (init x msgs)).message.Partition
    · refine ⟨_, if_pos hm, ?_⟩
      rw [h] at hl
      obtain ⟨m', hmem, ht, hp, hv⟩ := lastOffset_mem hl.symm
      rw [h2, List.append_assoc, List.append_assoc] at hs
      unfold PartitionSorted at hsorted
      rw [← hs] at hsorted
      have hpw := (List.pairwise_append.1 hsorted).2.2 m' hmem
        (run w x client k (init x msgs)).message (by simp)
      rw [← hv]
      exact hpw (by rw [ht, hm.1]) (by rw [hp, hm.2])
    · exact ⟨v, by rw [if_neg hm, h], le_refl v⟩

theorem entry_run_mono (w : PusherWorker) (x : Extern) (client : Nat → DoResult)
    (msgs : List ConsumerMessage) (hsorted : PartitionSorted msgs) (k j : Nat) (t : String)
    (p v : Int) (h : (work w x client msgs k).offsets.entry t p = some v) :
    ∃ v', (work w x client msgs (k + j)).offsets.entry t p = some v' ∧ v ≤ v' := by
  induction j with
  | zero => exact ⟨v, h, le_refl v⟩
  | succ j ih =>
    obtain ⟨v1, h1, hle1⟩ := ih
    obtain ⟨v2, h2, hle2⟩ := entry_step_mono w x client msgs hsorted (k + j) t p v1 h1
    exact ⟨v2, h2, le_trans hle1 hle2⟩

/-- C9: on a channel whose offsets do not decrease within a `(topic,
partition)`, a stored offset, once set, never decreases; a step either leaves
every map entry and the `CommitUpto` calls as they are, or it is the commit
step of the current message `m`, which issues `CommitUpto(m)`, sets the entry
of `m`'s `(topic, partition)` to `m.Offset` and leaves every other entry
unchanged; the stored offset is always that of the last committed message of
the `(topic, partition)`. -/
theorem stored_offset_monotone_and_set_at_commit (w : PusherWorker) (x : Extern)
    (client : Nat → DoResult) (msgs : List ConsumerMessage) (hsorted : PartitionSorted msgs) :
    (∀ k j t p v, (work w x client msgs k).offsets.entry t p = some v →
      ∃ v', (work w x client msgs (k + j)).offsets.entry t p = some v' ∧ v ≤ v') ∧
    (∀ k,
      ((work w x client msgs k).loc ≠ .commit ∧
        commits (work w x client msgs (k + 1)).trace = commits (work w x client msgs k).trace ∧
        ∀ t p, (work w x client msgs (k + 1)).offsets.entry t p =
          (work w x client msgs k).offsets.entry t p) ∨
      ((work w x client msgs k).loc = .commit ∧
        commits (work w x client msgs (k + 1)).trace =
          commits (work w x client msgs k).trace ++ [(work w x client msgs k).message] ∧
        (work w x client msgs (k + 1)).offsets.entry (work w x client msgs k).message.Topic
          (work w x client msgs k).message.Partition =
            some (work w x client msgs k).message.Offset ∧
        ∀ t p, ¬ (t = (work w x client msgs k).message.Topic ∧
            p = (work w x client msgs k).message.Partition) →
          (work w x client msgs (k + 1)).offsets.entry t p =
            (work w x client msgs k).offsets.entry t p)) ∧
    (∀ k t p, (work w x client msgs k).offsets.entry t p =
      lastOffset (commits (work w x client msgs k).trace) t p) := by
  refine ⟨fun k j t p v h => entry_run_mono w x client msgs hsorted k j t p v h, fun k => ?_,
    fun k t p => offsets_eq_lastOffset w x client msgs k t p⟩
  unfold work
  rw [run_succ]
  rcases step_offsets w x client (run w x client k (init x msgs)) with ⟨h1, h2, h3⟩ | ⟨h1, h2, h3⟩
  · exact Or.inl ⟨h1, h2, h3⟩
  · refine Or.inr ⟨h1, h2, ?_, fun t p hne => ?_⟩
    · rw [h3]; simp
    · rw [h3, if_neg hne]

/-- Witness for C9: offsets 5 and 6 on one partition; the entry is 5 after five
steps and at least 5 five steps later. -/
theorem stored_offset_monotone_and_set_at_commit_witness :
    PartitionSorted [sampleMessage 5, sampleMessage 6] ∧
    (work (sampleWorker 1 true) sampleExtern alwaysOk [sampleMessage 5, sampleMessage 6]
      5).offsets.entry "t" 0 = some 5 ∧
    ∃ v', (work (sampleWorker 1 true) sampleExtern alwaysOk [sampleMessage 5, sampleMessage 6]
      (5 + 5)).offsets.entry "t" 0 = some v' ∧ 5 ≤ v' :=
  have hs : PartitionSorted [sampleMessage 5, sampleMessage 6] := by
    simp [PartitionSorted, sampleMessage]
  ⟨hs, by decide,
    (stored_offset_monotone_and_set_at_commit (sampleWorker 1 true) sampleExtern alwaysOk
      [sampleMessage 5, sampleMessage 6] hs).1 5 5 "t" 0 5 (by decide)⟩

/-! ## Further facts about `work` -/

theorem run_four (w : PusherWorker) (x : Extern) (client : Nat → DoResult) (s : State) :
    run w x client 4 s =
      step w x client (step w x client (step w x client (step w x client s))) := rfl

/-- With `BypassFailed` on and a `Callback.Url` that parses, `k < RetryTimes`
failing calls followed by a successful one make exactly the attempts
`0 .. k`, then the bypass log line and one `CommitUpto(m)`, without a sleep,
and the loop is back at its head after `k + 5` steps. -/
theorem bypass_on_commits_after_success (w : PusherWorker) (x : Extern)
    (client : Nat → DoResult) (s0 : State) (m : ConsumerMessage) (rest : List ConsumerMessage)
    (k : Nat)
    (hb : w.Callback.BypassFailed = true) (hk : (k : Int) < w.Callback.RetryTimes)
    (hurl : x.UrlParses w.Callback.Url = true)
    (hloc : s0.loc = .recv) (hpend : s0.pending = m :: rest) (hnp : s0.panicked = false)
    (hfail : ∀ j, j < k → (delivery (client (s0.calls + j))).1 = false)
    (hok : (delivery (client (s0.calls + k))).1 = true) :
    (run w x client (k + 5) s0).loc = .recv ∧
    (run w x client (k + 5) s0).pending = rest ∧
    (run w x client (k + 5) s0).trace =
      s0.trace ++ offsetLog (s0.offsets.ensure m.Topic) s0.seq m ++
        [Event.received s0.seq (x.CreateMsg m)] ++
        failedAttemptEvents w x s0.seq m k ++
        [Event.attempt s0.seq m (acceptedRequest w x (x.CreateMsg m) k) true,
          Event.bypass s0.seq k, Event.commitUpto s0.seq m] ∧
    (run w x client (k + 5) s0).calls = s0.calls + k + 1 ∧
    (run w x client (k + 5) s0).offsets.entry m.Topic m.Partition = some m.Offset := by
  have e : k + 5 = 1 + k + 4 := by omega
  have h1 : run w x client 1 s0 = receive x s0 m rest := by
    simp [run_one, step, hloc, hpend]
  have h2 := run_failed_attempts w x client k (receive x s0 m rest) rfl rfl
    (by simpa [receive] using hnp) (fun _ => hurl)
    (by simp only [receive]; omega) (by simpa [receive] using hfail)
  rw [e, run_add, run_add, h1, h2, run_four]
  simp [step, receive, attemptOnce, deliveryRequest, hurl, hnp, hb, hk, hok, offsetLog,
    failedAttemptEvents, entry_set]

/-- A `Callback.Url` that does not parse: the first call of `delivery` panics,
`work` is dead, and nothing is ever committed, also with `BypassFailed` on. -/
theorem unparsable_url_dies_in_first_attempt :
    (work (badUrlWorker 3 true) sampleExtern alwaysFail [sampleMessage 10] 2).trace =
      [Event.received 0 (sampleExtern.CreateMsg (sampleMessage 10)),
        Event.died 0 (sampleMessage 10) 0] ∧
    (work (badUrlWorker 3 true) sampleExtern alwaysFail [sampleMessage 10] 2).panicked = true ∧
    (work (badUrlWorker 3 true) sampleExtern alwaysFail [sampleMessage 10] 40).trace =
      (work (badUrlWorker 3 true) sampleExtern alwaysFail [sampleMessage 10] 2).trace := by
  refine ⟨by decide, by decide, by decide⟩

/-- The offset check inside `work`: when message `m` is taken, the trace gains
`offsetLog` for the map as it stands, and the map entry consulted is the offset
of the last message of `m`'s `(topic, partition)` among those received
before. -/
theorem work_offset_check (w : PusherWorker) (x : Extern) (client : Nat → DoResult)
    (msgs : List ConsumerMessage) (k : Nat) (m : ConsumerMessage) (rest : List ConsumerMessage)
    (hloc : (work w x client msgs k).loc = .recv)
    (hpend : (work w x client msgs k).pending = m :: rest) :
    (work w x client msgs (k + 1)).trace =
      (work w x client msgs k).trace ++
        offsetLog ((work w x client msgs k).offsets.ensure m.Topic)
          (work w x client msgs k).seq m ++
        [Event.received (work w x client msgs k).seq (x.CreateMsg m)] ∧
    ((work w x client msgs k).offsets.ensure m.Topic).entry m.Topic m.Partition =
      lastOffset (msgs.take (work w x client msgs k).seq) m.Topic m.Partition := by
  have hs := streamInv_run w x client msgs k
  have hl := offsets_eq_lastOffset w x client msgs k m.Topic m.Partition
  have h1 := hs.stream
  have h2 := hs.seq_eq
  unfold work at hloc hpend hl h1 h2 ⊢
  rw [run_succ]
  generalize run w x client k (init x msgs) = s at hloc hpend hl h1 h2
  constructor
  · simp [step, hloc, hpend, receive, offsetLog]
  · simp only [current, hloc, List.append_nil, List.length_nil, Nat.add_zero] at h1 h2
    rw [entry_ensure, hl, h2, ← take_length_of_append h1]

/-- A dead `work` is at the head of the inner loop, where `step` leaves it. -/
theorem panicked_at_inner (w : PusherWorker) (x : Extern) (client : Nat → DoResult)
    (msgs : List ConsumerMessage) (k : Nat)
    (h : (work w x client msgs k).panicked = true) :
    (work w x client msgs k).loc = .inner ∧
    ∀ j, run w x client j (work w x client msgs k) = work w x client msgs k := by
  have hloc : ∀ k, (work w x client msgs k).panicked = true →
      (work w x client msgs k).loc = .inner := by
    intro k
    induction k with
    | zero => simp [work, run_zero, init]
    | succ k ih =>
      unfold work at ih ⊢
      rw [run_succ]
      generalize run w x client k (init x msgs) = s at ih
      rcases s with ⟨loc, pending, offsets, eventCount, message, msg, suc, rt, pk, calls, seq, trace⟩
      dsimp only at ih
      cases loc with
      | recv =>
        cases pending with
        | nil => intro hp; simp [step] at hp; exact absurd (ih hp) (by simp)
        | cons m rest => intro _; simp [step, receive]
      | inner =>
        simp only [step]
        split
        · intro _; rfl
        · split
          · simp only [attemptOnce]
            split <;> intro _ <;> rfl
          · intro hp; simp at hp; simp_all
      | check =>
        simp only [step]
        split <;> (intro hp; simp at hp; exact absurd (ih hp) (by simp))
      | commit => intro hp; simp [step] at hp; exact absurd (ih hp) (by simp)
      | done => intro hp; simp [step] at hp; exact absurd (ih hp) (by simp)
  refine ⟨hloc k h, fun j => ?_⟩
  induction j with
  | zero => rfl
  | succ j ih =>
    rw [run_succ, ih]
    simp [step, hloc k h, h]

end Taiji
